import Mathlib

/-!
# emailable-go: a shallow embedding of `emailable.go`

The client library is embedded as pure functions that pass an explicit `World`
(the log of every `http.Get` / `http.Post` issued and the trace of `BatchVerify`
invocations).  Everything the library delegates to the Go standard library is an
explicit parameter, gathered in `Env`:

* the HTTP transport (`http.Get`, `http.Post`): its answer may depend on the whole
  history of requests, so any behaviour of the remote service is covered;
* `mail.ParseAddress`, consumed only through `err == nil`;
* the three `json.Decoder.Decode` targets.

`Emailable.BatchFromFile` is the body of the Go function over the tokens that successive
`scanner.Scan()` / `scanner.Text()` calls yield before `Scan` returns false;
`Emailable.BatchFromReader` is the Go function on the stream itself, the tokens being
those of `bufioScan`, which stops for good at a line that does not fit the scanner's
buffer (`BatchFromFile` never consults `scanner.Err()`).
-/

namespace EmailableGo

/-! ## Data model -/

/-- A Go `[]string`; `nil` is the nil slice, `of xs` a non-nil slice holding `xs`. -/
inductive StringSlice
  | nil
  | of (xs : List String)
  deriving DecidableEq, Repr

/-- The elements of a slice, in order. -/
def StringSlice.elems : StringSlice → List String
  | .nil => []
  | .of xs => xs

/-- Go `len(s)`. -/
def StringSlice.len (s : StringSlice) : Nat := s.elems.length

/-- Go `append(s, x)`: the result is never the nil slice. -/
def StringSlice.append (s : StringSlice) (x : String) : StringSlice :=
  .of (s.elems ++ [x])

/-- Go `type Emailable struct { apiKey string }`. -/
structure Emailable where
  apiKey : String
  deriving DecidableEq, Repr

/-- Go `VerifyRequest`; `Timeout` is a `uint8`, kept as a natural number. -/
structure VerifyRequest where
  Email : String
  Smtp : Bool
  AcceptAll : Bool
  Timeout : Nat
  ApiKey : String
  deriving DecidableEq, Repr

/-- Go `VerifyResponse`. -/
structure VerifyResponse where
  AcceptAll : Bool
  DidYouMean : String
  Disposable : Bool
  Domain : String
  Duration : Float
  Email : String
  FirstName : String
  Free : Bool
  FullName : String
  Gender : String
  LastName : String
  MxRecord : String
  Reason : String
  Role : Bool
  Score : Int
  SmtpProvider : String
  State : String
  Tag : String
  User : String

/-- Go `BatchRequest`; `Simulate` has type `SimulateValue`, a defined string type. -/
structure BatchRequest where
  Emails : StringSlice
  Url : String
  Retries : Bool
  Simulate : String
  ApiKey : String
  deriving DecidableEq, Repr

/-- Go `BatchResponse`. -/
structure BatchResponse where
  Message : String
  Id : String
  deriving DecidableEq, Repr

/-- Go `BatchStatusRequest` (the field is spelled `Smiluate` in the source). -/
structure BatchStatusRequest where
  Id : String
  ApiKey : String
  Partial : String
  Smiluate : String
  deriving DecidableEq, Repr

/-- Go `ReasonCount`. -/
structure ReasonCount where
  AcceptedEmail : Int
  InvalidDomain : Int
  InvalidEmail : Int
  InvalidSmtp : Int
  LowDeliverability : Int
  LowQuality : Int
  NoConnect : Int
  RejectedEmail : Int
  Timeout : Int
  UnavailableSmtp : Int
  UnexpectedError : Int

/-- Go `TotalCounts`. -/
structure TotalCounts where
  Deliverable : Int
  Processed : Int
  Risky : Int
  Total : Int
  Undeliverable : Int
  Unknown : Int

/-- Go `BatchStatusResponse`. -/
structure BatchStatusResponse where
  Message : String
  Processed : Int
  Total : Int
  Emails : List VerifyResponse
  Id : String
  ReasonCount : ReasonCount
  TotalCounts : TotalCounts

/-- Go `SimulateValue` constants. -/
def GenericError : String := "generic_error"
def InsufficientCreditsError : String := "insufficient_credits_error"
def PaymentError : String := "payment_error"
def CardError : String := "card_error"

/-! ## Errors -/

/-- The `error` values the library can return: its own messages (`errors.New`,
`fmt.Errorf`), errors handed back by the HTTP transport, and errors handed back by
the JSON decoder. -/
inductive Error
  | text (msg : String)
  | transport (cause : String)
  | decode (cause : String)
  deriving DecidableEq, Repr

/-! ## HTTP and JSON -/

/-- Go `url.Values` (`map[string][]string`), as an association list. -/
abbrev Values := List (String × List String)

/-- Go `v[key]`: the values stored under `key` (empty when absent). -/
def Values.get : Values → String → List String
  | [], _ => []
  | (k, vs) :: rest, key => if k = key then vs else Values.get rest key

/-- Go `v.Add(key, value)`: appends `value` to the values stored under `key`. -/
def Values.Add : Values → String → String → Values
  | [], key, value => [(key, [value])]
  | (k, vs) :: rest, key, value =>
    if k = key then (k, vs ++ [value]) :: rest else (k, vs) :: Values.Add rest key value

/-- The JSON values that occur in a marshalled `BatchRequest`. -/
inductive JsonValue
  | null
  | bool (b : Bool)
  | string (s : String)
  | strings (xs : List String)
  deriving DecidableEq, Repr

/-- A JSON object: its members in the order they are written. -/
abbrev JsonObject := List (String × JsonValue)

/-- An outgoing HTTP request: `http.Get(url + "?" + query.Encode())` or
`http.Post(url, contentType, body)`. -/
inductive HttpRequest
  | get (url : String) (query : Values)
  | post (url : String) (contentType : String) (body : JsonObject)
  deriving DecidableEq, Repr

/-- The part of `http.Response` the library reads. -/
structure HttpResponse where
  StatusCode : Int
  Body : String
  deriving DecidableEq, Repr

/-- What the library takes from the Go standard library and the remote service. -/
structure Env where
  /-- Outcome of `http.Get` / `http.Post`, given the requests issued before. -/
  transport : List HttpRequest → HttpRequest → Except String HttpResponse
  /-- Outcome `err == nil` of `mail.ParseAddress`. -/
  parseAddress : String → Bool
  decodeVerifyResponse : String → Except String VerifyResponse
  decodeBatchResponse : String → Except String BatchResponse
  decodeBatchStatusResponse : String → Except String BatchStatusResponse

/-- The observable state: every HTTP request issued so far, and every `BatchVerify`
invocation made so far together with what it returned. -/
structure World where
  sent : List HttpRequest
  calls : List (BatchRequest × Except Error BatchResponse)

/-- Issues one HTTP request: asks the transport and logs the request. -/
def World.roundTrip (env : Env) (w : World) (hreq : HttpRequest) :
    Except String HttpResponse × World :=
  (env.transport w.sent hreq, { w with sent := w.sent ++ [hreq] })

/-! ## The client -/

def base_url : String := "https://api.emailable.com/v1"
def api_key_param : String := "api_key"

/-- Go `NewEmailable`. -/
def NewEmailable (apiKey : String) : Emailable := { apiKey := apiKey }

/-- Go `NewVerifyReq`. -/
def Emailable.NewVerifyReq (emailable : Emailable) (email : String) : VerifyRequest :=
  { Email := email, Smtp := false, AcceptAll := false, Timeout := 5,
    ApiKey := emailable.apiKey }

/-- Go `NewBatchReq`. -/
def Emailable.NewBatchReq (emailable : Emailable) (emails : StringSlice) : BatchRequest :=
  { Emails := emails, Url := "", Retries := false, Simulate := "",
    ApiKey := emailable.apiKey }

/-- Go `NewBatchVerificationReq`. -/
def Emailable.NewBatchVerificationReq (emailable : Emailable) (id : String) :
    BatchStatusRequest :=
  { Id := id, ApiKey := emailable.apiKey, Partial := "", Smiluate := "" }

/-- The request `Verify` issues (source lines 30-48): the timeout is clamped, then the
four query parameters are added to the empty query of `base_url/verify`.  `url.Parse`
of that constant URL cannot fail, so its error branch is not represented. -/
def Emailable.verifyHttpRequest (emailable : Emailable) (req : VerifyRequest) : HttpRequest :=
  let timeout : Nat :=
    if req.Timeout < 5 then 5
    else if req.Timeout > 30 then 30
    else req.Timeout
  let values : Values := []
  let values := values.Add "email" req.Email
  let values := values.Add "smtp" (toString req.Smtp)
  let values := values.Add "timeout" (toString timeout)
  let values := values.Add api_key_param emailable.apiKey
  .get (base_url ++ "/verify") values

/-- The error `Verify` returns on status 249. -/
def upstreamBusy : Error :=
  .text "your request is taking longer than normal. please send your request again"

/-- The error of `fmt.Errorf("invalid status code: %v", code)`. -/
def invalidStatusCode (code : Int) : Error :=
  .text ("invalid status code: " ++ toString code)

/-- Go `(*Emailable).Verify`. -/
def Emailable.Verify (env : Env) (emailable : Emailable) (req : VerifyRequest) (w : World) :
    Except Error VerifyResponse × World :=
  match w.roundTrip env (emailable.verifyHttpRequest req) with
  | (.error err, w1) => (.error (.transport err), w1)
  | (.ok hresp, w1) =>
    if hresp.StatusCode = 249 then (.error upstreamBusy, w1)
    else if hresp.StatusCode ≠ 200 then (.error (invalidStatusCode hresp.StatusCode), w1)
    else
      match env.decodeVerifyResponse hresp.Body with
      | .error err => (.error (.decode err), w1)
      | .ok vresp => (.ok vresp, w1)

/-- Go `json.Marshal(req)` for a `BatchRequest`: one member per struct field, in field
order, named by the field's `json` tag; a nil `Emails` is written as `null`.  All fields
are strings, booleans or string slices, so marshalling cannot fail. -/
def BatchRequest.marshal (req : BatchRequest) : JsonObject :=
  [ ("emails", match req.Emails with
      | .nil => .null
      | .of xs => .strings xs),
    ("url", .string req.Url),
    ("retries", .bool req.Retries),
    ("string", .string req.Simulate),
    ("api_key", .string req.ApiKey) ]

/-- Appends one `BatchVerify` invocation and its returned value to the call trace. -/
def World.record (w : World) (req : BatchRequest) (out : Except Error BatchResponse) : World :=
  { w with calls := w.calls ++ [(req, out)] }

/-- Go `(*Emailable).BatchVerify`; every return path records the invocation in
`World.calls`. -/
def Emailable.BatchVerify (env : Env) (_emailable : Emailable) (req : BatchRequest)
    (w : World) : Except Error BatchResponse × World :=
  if req.Emails.len > 1000 then
    (.error (.text "too much email given"), w.record req (.error (.text "too much email given")))
  else
    match w.roundTrip env (.post (base_url ++ "/batch") "application/json" req.marshal) with
    | (.error err, w1) => (.error (.transport err), w1.record req (.error (.transport err)))
    | (.ok resp, w1) =>
      if resp.StatusCode ≠ 200 then
        (.error (invalidStatusCode resp.StatusCode),
          w1.record req (.error (invalidStatusCode resp.StatusCode)))
      else
        match env.decodeBatchResponse resp.Body with
        | .error err => (.error (.decode err), w1.record req (.error (.decode err)))
        | .ok batch => (.ok batch, w1.record req (.ok batch))

/-- Go `const maxSize = 999` of `BatchFromFile`. -/
def maxSize : Nat := 999

/-- The local variables of `BatchFromFile` that live across loop iterations. -/
structure ScanState where
  buffer : StringSlice
  results : List BatchResponse
  deriving DecidableEq, Repr

/-- One iteration of the `for scanner.Scan()` loop of `BatchFromFile` (source lines
94-106) on the line `email`; `.error err` is the early `return nil, err`. -/
def Emailable.scanStep (env : Env) (emailable : Emailable) (email : String) (s : ScanState)
    (w : World) : Except Error ScanState × World :=
  let flushed : Except Error ScanState × World :=
    if s.buffer.len = maxSize then
      match emailable.BatchVerify env (emailable.NewBatchReq s.buffer) w with
      | (.error err, w1) => (.error err, w1)
      | (.ok resp, w1) => (.ok { buffer := .nil, results := s.results ++ [resp] }, w1)
    else (.ok s, w)
  match flushed with
  | (.error err, w1) => (.error err, w1)
  | (.ok s1, w1) =>
    if env.parseAddress email then
      (.ok { s1 with buffer := s1.buffer.append email }, w1)
    else (.ok s1, w1)

/-- The `for scanner.Scan()` loop of `BatchFromFile` over the lines the scanner yields. -/
def Emailable.scanLoop (env : Env) (emailable : Emailable) :
    List String → ScanState → World → Except Error ScanState × World
  | [], s, w => (.ok s, w)
  | email :: rest, s, w =>
    match emailable.scanStep env email s w with
    | (.error err, w1) => (.error err, w1)
    | (.ok s1, w1) => Emailable.scanLoop env emailable rest s1 w1

/-- The end of `BatchFromFile` (source lines 108-114): the final flush, whose error is
dropped, and the return of `results`. -/
def Emailable.finalFlush (env : Env) (emailable : Emailable) (s : ScanState) (w : World) :
    Except Error (List BatchResponse) × World :=
  if s.buffer.len > 0 then
    match emailable.BatchVerify env (emailable.NewBatchReq s.buffer) w with
    | (.ok resp, w1) => (.ok (s.results ++ [resp]), w1)
    | (.error _, w1) => (.ok s.results, w1)
  else (.ok s.results, w)

/-- The state of `BatchFromFile` on entering the loop: `results` is nil and `buffer` is
`make([]string, 0, maxSize)`. -/
def ScanState.init : ScanState := { buffer := .of [], results := [] }

/-- Go `(*Emailable).BatchFromFile`; `file` is the sequence of tokens the scanner yields
from the `io.Reader` (see `Emailable.BatchFromReader` for the stream itself). -/
def Emailable.BatchFromFile (env : Env) (emailable : Emailable) (file : List String)
    (w : World) : Except Error (List BatchResponse) × World :=
  match emailable.scanLoop env file ScanState.init w with
  | (.error err, w1) => (.error err, w1)
  | (.ok s, w1) => emailable.finalFlush env s w1

/-! ## bufio.Scanner and the io.Reader

`BatchFromFile` reads its `io.Reader` through `bufio.NewScanner(file)` with the default
split function (`bufio.ScanLines`) and the default buffer limit.  The stream is what the
reader delivers before `io.EOF` or a read error (either ends the scan the same way),
taken as UTF-8 text.
-/

/-- Go `bufio.MaxScanTokenSize`. -/
def MaxScanTokenSize : Nat := 64 * 1024

/-- The length in bytes of a piece of the stream. -/
def byteLen (data : List Char) : Nat := (data.map Char.utf8Size).sum

/-- Go `dropCR` of package `bufio`: drops one terminal carriage return. -/
def dropCR (data : List Char) : List Char :=
  if data.getLast? = some '\r' then data.dropLast else data

/-- What a `bufio.Scanner` does before `Scan` returns false: the tokens it yielded, and
whether it stopped on `ErrTooLong`. -/
structure Scanned where
  tokens : List String
  tooLong : Bool
  deriving DecidableEq, Repr

/-- The scanner on the rest of the stream, `cur` being the bytes of the current line read
so far.  A line is yielded when it and its terminator fit the buffer, that is when the
line is shorter than `MaxScanTokenSize` bytes; otherwise the buffer fills up, `Scan`
returns false for good and `Err()` is `ErrTooLong`.  A final line without terminator is
yielded when non-empty and shorter than the limit (a reader is taken to report `io.EOF`
on a read of its own, as files and in-memory readers do). -/
def scanFrom : List Char → List Char → Scanned
  | [], cur =>
    if cur = [] then { tokens := [], tooLong := false }
    else if byteLen cur < MaxScanTokenSize then
      { tokens := [String.mk (dropCR cur)], tooLong := false }
    else { tokens := [], tooLong := true }
  | c :: rest, cur =>
    if c = '\n' then
      if byteLen cur < MaxScanTokenSize then
        { tokens := String.mk (dropCR cur) :: (scanFrom rest []).tokens,
          tooLong := (scanFrom rest []).tooLong }
      else { tokens := [], tooLong := true }
    else scanFrom rest (cur ++ [c])

/-- Go `bufio.NewScanner(file)` followed by `scanner.Scan()` until it returns false. -/
def bufioScan (stream : List Char) : Scanned := scanFrom stream []

/-- The lines of the rest of a stream, `cur` being the current line so far: the split
of `bufio.ScanLines` without any limit on the length of a line. -/
def linesFrom : List Char → List Char → List String
  | [], cur => if cur = [] then [] else [String.mk (dropCR cur)]
  | c :: rest, cur =>
    if c = '\n' then String.mk (dropCR cur) :: linesFrom rest []
    else linesFrom rest (cur ++ [c])

/-- The input lines of a stream. -/
def streamLines (stream : List Char) : List String := linesFrom stream []

/-- Go `(*Emailable).BatchFromFile` on the `io.Reader` that delivers `stream`: the loop
runs over the tokens the scanner yields, and `scanner.Err()` is never consulted. -/
def Emailable.BatchFromReader (env : Env) (emailable : Emailable) (stream : List Char)
    (w : World) : Except Error (List BatchResponse) × World :=
  emailable.BatchFromFile env (bufioScan stream).tokens w

/-- The request `BatchStatus` issues (source lines 119-133); as in `Verify`, `url.Parse`
of the constant URL cannot fail. -/
def Emailable.batchStatusHttpRequest (_emailable : Emailable) (req : BatchStatusRequest) :
    HttpRequest :=
  let querys : Values := []
  let querys := querys.Add api_key_param req.ApiKey
  let querys := querys.Add "id" req.Id
  let querys := if req.Partial ≠ "" then querys.Add "partial" req.Partial else querys
  let querys := if req.Smiluate ≠ "" then querys.Add "simulate" req.Smiluate else querys
  .get (base_url ++ "/batch") querys

/-- Go `(*Emailable).BatchStatus`, on the request `req` points to; the status code is
not examined. -/
def Emailable.BatchStatus (env : Env) (emailable : Emailable) (req : BatchStatusRequest)
    (w : World) : Except Error BatchStatusResponse × World :=
  match w.roundTrip env (emailable.batchStatusHttpRequest req) with
  | (.error err, w1) => (.error (.transport err), w1)
  | (.ok hresp, w1) =>
    match env.decodeBatchStatusResponse hresp.Body with
    | .error err => (.error (.decode err), w1)
    | .ok resp => (.ok resp, w1)

/-! ## Observations used by the properties -/

/-- The credential values an outgoing request carries: the values of the `api_key`
query parameter of a GET, the values of the `api_key` members of a POST body. -/
def HttpRequest.credentials : HttpRequest → List JsonValue
  | .get _ query => (Values.get query api_key_param).map JsonValue.string
  | .post _ _ body => (body.filter (fun m => m.1 = api_key_param)).map Prod.snd

/-- The member names of a JSON object, in order. -/
def JsonObject.keys (o : JsonObject) : List String := o.map Prod.fst

/-- The value stored under `key` in a JSON object, if any. -/
def JsonObject.member (o : JsonObject) (key : String) : Option JsonValue :=
  (o.find? (fun m => m.1 = key)).map Prod.snd

/-- The addresses of the buffer handed to one `BatchVerify` invocation. -/
def callEmails (c : BatchRequest × Except Error BatchResponse) : List String :=
  c.1.Emails.elems

/-- The POST `BatchVerify` issues for `req` when it passes the size check. -/
def batchPost (req : BatchRequest) : HttpRequest :=
  .post (base_url ++ "/batch") "application/json" req.marshal

/-- Whether a recorded `BatchVerify` invocation returned a response (no error). -/
def callSucceeded (c : BatchRequest × Except Error BatchResponse) : Bool :=
  match c.2 with
  | .ok _ => true
  | .error _ => false

/-- The response a recorded `BatchVerify` invocation returned, if it returned one. -/
def callResponse (c : BatchRequest × Except Error BatchResponse) : Option BatchResponse :=
  match c.2 with
  | .ok resp => some resp
  | .error _ => none

/-! ## Sample environments for the concrete instances -/

/-- A service that answers every request with status 200 and an empty body, a decoder
that yields a fixed acknowledgement, and a parser that accepts lines containing `@`. -/
def Env.accepting : Env where
  transport := fun _ _ => .ok { StatusCode := 200, Body := "" }
  parseAddress := fun s => s.data.contains '@'
  decodeVerifyResponse := fun _ => .error "EOF"
  decodeBatchResponse := fun _ => .ok { Message := "ok", Id := "b1" }
  decodeBatchStatusResponse := fun _ => .error "EOF"

/-- A transport on which every request fails. -/
def Env.unreachable : Env :=
  { Env.accepting with transport := fun _ _ => .error "dial tcp: connection refused" }

/-- A service that answers every request with status 249. -/
def Env.busy : Env :=
  { Env.accepting with transport := fun _ _ => .ok { StatusCode := 249, Body := "" } }

/-- A transport whose first request succeeds and whose later requests fail. -/
def Env.failingAfterFirst : Env :=
  { Env.accepting with
    transport := fun history _ =>
      if history.length = 0 then .ok { StatusCode := 200, Body := "" }
      else .error "dial tcp: connection refused" }

/-- A local part of 70000 bytes. -/
@[irreducible] def longLocalPart : List Char := List.replicate 70000 'a'

/-- An address of 70004 bytes. -/
def longAddress : List Char := longLocalPart ++ ['@', 'b', '.', 'c']

/-- A stream of three lines, the second of 70004 bytes. -/
def longLineStream : List Char :=
  ['a', '@', 'b', '.', 'c'] ++ '\n' :: (longAddress ++ '\n' :: (['d', '@', 'e', '.', 'f'] ++
    '\n' :: []))

/-- A stream of `n` lines `a@b.c`. -/
def sampleStream (n : Nat) : List Char :=
  (List.replicate n ['a', '@', 'b', '.', 'c', '\n']).flatten

/-- The world before any request. -/
def World.empty : World := { sent := [], calls := [] }

/-! ## Basic facts about the transport operations -/

/-- `Verify` issues exactly one request, whatever the answer. -/
theorem Verify_world (env : Env) (emailable : Emailable) (req : VerifyRequest) (w : World) :
    (emailable.Verify env req w).2 =
      { w with sent := w.sent ++ [emailable.verifyHttpRequest req] } := by
  unfold Emailable.Verify World.roundTrip
  cases env.transport w.sent (emailable.verifyHttpRequest req) with
  | error err => rfl
  | ok hresp =>
    dsimp only
    split_ifs
    · rfl
    · rfl
    · cases env.decodeVerifyResponse hresp.Body <;> rfl

/-- The query of the request `Verify` issues. -/
theorem verifyHttpRequest_eq (emailable : Emailable) (req : VerifyRequest) :
    emailable.verifyHttpRequest req =
      .get (base_url ++ "/verify")
        [("email", [req.Email]), ("smtp", [toString req.Smtp]),
         ("timeout", [toString
            (if req.Timeout < 5 then 5 else if req.Timeout > 30 then 30 else req.Timeout)]),
         ("api_key", [emailable.apiKey])] := by
  simp [Emailable.verifyHttpRequest, Values.Add, api_key_param]

/-- `BatchVerify` issues no request for more than 1000 addresses and exactly one POST,
carrying the marshalled request, otherwise. -/
theorem BatchVerify_sent (env : Env) (emailable : Emailable) (req : BatchRequest) (w : World) :
    (emailable.BatchVerify env req w).2.sent =
      w.sent ++ (if req.Emails.len > 1000 then []
        else [.post (base_url ++ "/batch") "application/json" req.marshal]) := by
  unfold Emailable.BatchVerify World.roundTrip
  by_cases h : req.Emails.len > 1000
  · simp [h, World.record]
  · simp only [h, if_false]
    cases env.transport w.sent (.post (base_url ++ "/batch") "application/json" req.marshal) with
    | error err => rfl
    | ok resp =>
      dsimp only
      split_ifs
      · rfl
      · cases env.decodeBatchResponse resp.Body <;> rfl

/-- `BatchVerify` appends exactly its own invocation, with the value it returns, to the
call trace. -/
theorem BatchVerify_calls (env : Env) (emailable : Emailable) (req : BatchRequest) (w : World) :
    (emailable.BatchVerify env req w).2.calls =
      w.calls ++ [(req, (emailable.BatchVerify env req w).1)] := by
  unfold Emailable.BatchVerify World.roundTrip
  by_cases h : req.Emails.len > 1000
  · simp [h, World.record]
  · simp only [h, if_false]
    cases env.transport w.sent (.post (base_url ++ "/batch") "application/json" req.marshal) with
    | error err => rfl
    | ok resp =>
      dsimp only
      split_ifs
      · rfl
      · cases env.decodeBatchResponse resp.Body <;> rfl

/-- `BatchStatus` issues exactly one request, whatever the answer. -/
theorem BatchStatus_world (env : Env) (emailable : Emailable) (req : BatchStatusRequest)
    (w : World) :
    (emailable.BatchStatus env req w).2 =
      { w with sent := w.sent ++ [emailable.batchStatusHttpRequest req] } := by
  unfold Emailable.BatchStatus World.roundTrip
  cases env.transport w.sent (emailable.batchStatusHttpRequest req) with
  | error err => rfl
  | ok hresp =>
    dsimp only
    cases env.decodeBatchStatusResponse hresp.Body <;> rfl

/-- The credential carried by the request `BatchStatus` issues. -/
theorem batchStatusHttpRequest_credentials (emailable : Emailable) (req : BatchStatusRequest) :
    (emailable.batchStatusHttpRequest req).credentials = [.string req.ApiKey] := by
  unfold Emailable.batchStatusHttpRequest
  by_cases hp : req.Partial = "" <;> by_cases hs : req.Smiluate = "" <;>
    simp [hp, hs, HttpRequest.credentials, Values.Add, Values.get, api_key_param]

/-- The two messages `Verify` uses for a bad status differ in their first character. -/
theorem invalidStatusCode_ne_upstreamBusy (code : Int) :
    invalidStatusCode code ≠ upstreamBusy := by
  intro h
  have h1 : ("invalid status code: " ++ toString code).data =
      ("your request is taking longer than normal. please send your request again").data := by
    unfold invalidStatusCode upstreamBusy at h
    injection h with h
    rw [h]
  rw [String.data_append] at h1
  have h2 := congrArg List.head? h1
  simp at h2

/-! ## Verify -/

/-- C1: for every `VerifyRequest` with timeout `t`, `Verify` issues exactly one GET whose
`timeout` query parameter has the single value 5 if `t < 5`, 30 if `t > 30` and `t`
otherwise; the request is issued whatever `t` is, and every error `Verify` returns
comes from the transport, from the status code of the answer or from decoding its body,
never from the timeout. -/
theorem Verify_timeout_clamped (env : Env) (emailable : Emailable) (req : VerifyRequest)
    (w : World) :
    ∃ url query,
      (emailable.Verify env req w).2.sent = w.sent ++ [.get url query] ∧
      Values.get query "timeout" =
        [toString
          (if req.Timeout < 5 then 5 else if req.Timeout > 30 then 30 else req.Timeout)] ∧
      ∀ err, (emailable.Verify env req w).1 = .error err →
        (∃ cause, env.transport w.sent (.get url query) = .error cause ∧
          err = .transport cause) ∨
        (∃ hresp, env.transport w.sent (.get url query) = .ok hresp ∧
          ((hresp.StatusCode ≠ 200 ∧ (err = upstreamBusy ∨
              err = invalidStatusCode hresp.StatusCode)) ∨
            (hresp.StatusCode = 200 ∧
              ∃ cause, env.decodeVerifyResponse hresp.Body = .error cause ∧
                err = .decode cause))) := by
  refine ⟨base_url ++ "/verify",
    [("email", [req.Email]), ("smtp", [toString req.Smtp]),
     ("timeout", [toString
        (if req.Timeout < 5 then 5 else if req.Timeout > 30 then 30 else req.Timeout)]),
     ("api_key", [emailable.apiKey])], ?_, ?_, ?_⟩
  · rw [Verify_world, verifyHttpRequest_eq]
  · simp [Values.get]
  · intro err herr
    rw [← verifyHttpRequest_eq emailable req]
    unfold Emailable.Verify World.roundTrip at herr
    cases htr : env.transport w.sent (emailable.verifyHttpRequest req) with
    | error cause =>
      rw [htr] at herr
      left
      refine ⟨cause, rfl, ?_⟩
      simp only [Except.error.injEq] at herr
      exact herr.symm
    | ok hresp =>
      rw [htr] at herr
      right
      refine ⟨hresp, rfl, ?_⟩
      dsimp only at herr
      by_cases h249 : hresp.StatusCode = 249
      · left
        simp only [h249, if_true, Except.error.injEq] at herr
        refine ⟨by omega, Or.inl herr.symm⟩
      · by_cases h200 : hresp.StatusCode = 200
        · right
          rw [if_neg h249, if_neg (not_not.mpr h200)] at herr
          cases hdec : env.decodeVerifyResponse hresp.Body with
          | error cause =>
            rw [hdec] at herr
            simp only [Except.error.injEq] at herr
            subst herr
            exact ⟨h200, cause, rfl, rfl⟩
          | ok v =>
            rw [hdec] at herr
            cases herr
        · left
          simp only [h249, if_false, ne_eq, h200, not_false_eq_true, if_true,
            Except.error.injEq] at herr
          exact ⟨h200, Or.inr herr.symm⟩

/-- C9: when the answer to the request `Verify` issues has status 249, `Verify` returns
no response and the upstream-busy error, having issued exactly that one request; and
for every call of `Verify` answered with any other status different from 200, the error
returned is the generic failure carrying that status code, which differs from the
upstream-busy error. -/
theorem Verify_status_249 (env : Env) (emailable : Emailable) (req : VerifyRequest) (w : World)
    (hresp : HttpResponse)
    (hanswer : env.transport w.sent (emailable.verifyHttpRequest req) = .ok hresp)
    (hcode : hresp.StatusCode = 249) :
    emailable.Verify env req w =
        (.error upstreamBusy, { w with sent := w.sent ++ [emailable.verifyHttpRequest req] }) ∧
      ∀ (env2 : Env) (emailable2 : Emailable) (req2 : VerifyRequest) (w2 : World)
        (hresp2 : HttpResponse),
        env2.transport w2.sent (emailable2.verifyHttpRequest req2) = .ok hresp2 →
        hresp2.StatusCode ≠ 200 → hresp2.StatusCode ≠ 249 →
        (emailable2.Verify env2 req2 w2).1 = .error (invalidStatusCode hresp2.StatusCode) ∧
        (emailable2.Verify env2 req2 w2).1 ≠ (emailable.Verify env req w).1 := by
  have hbusy : emailable.Verify env req w =
      (.error upstreamBusy,
        { w with sent := w.sent ++ [emailable.verifyHttpRequest req] }) := by
    unfold Emailable.Verify World.roundTrip
    rw [hanswer]
    simp [hcode]
  refine ⟨hbusy, ?_⟩
  intro env2 emailable2 req2 w2 hresp2 hans2 h200 h249
  have hgen : (emailable2.Verify env2 req2 w2).1 =
      .error (invalidStatusCode hresp2.StatusCode) := by
    unfold Emailable.Verify World.roundTrip
    rw [hans2]
    simp [h200, h249]
  refine ⟨hgen, ?_⟩
  rw [hgen, hbusy]
  intro h
  simp only [Except.error.injEq] at h
  exact invalidStatusCode_ne_upstreamBusy _ h

/-- C9, instance: a service answering 249 to a default request for `user@example.com`. -/
theorem Verify_status_249_witness :
    (NewEmailable "key").Verify Env.busy ((NewEmailable "key").NewVerifyReq "user@example.com")
        World.empty =
      (.error upstreamBusy,
        { World.empty with
          sent := World.empty.sent ++
            [(NewEmailable "key").verifyHttpRequest
              ((NewEmailable "key").NewVerifyReq "user@example.com")] }) :=
  (Verify_status_249 Env.busy (NewEmailable "key")
    ((NewEmailable "key").NewVerifyReq "user@example.com") World.empty
    { StatusCode := 249, Body := "" } rfl rfl).1

/-! ## BatchVerify -/

/-- C2: for every `BatchRequest` with more than 1000 addresses, `BatchVerify` returns no
response and the validation error, and issues no HTTP request. -/
theorem BatchVerify_over_1000 (env : Env) (emailable : Emailable) (req : BatchRequest)
    (w : World) (hlen : req.Emails.len > 1000) :
    (emailable.BatchVerify env req w).1 = .error (.text "too much email given") ∧
      (emailable.BatchVerify env req w).2.sent = w.sent := by
  refine ⟨?_, ?_⟩
  · unfold Emailable.BatchVerify
    simp [hlen]
  · rw [BatchVerify_sent]
    simp [hlen]

/-- C2, instance: 1001 addresses. -/
theorem BatchVerify_over_1000_witness :
    ((NewEmailable "key").NewBatchReq (.of (List.replicate 1001 "a@b.c"))).Emails.len > 1000 ∧
    ((NewEmailable "key").BatchVerify Env.accepting
        ((NewEmailable "key").NewBatchReq (.of (List.replicate 1001 "a@b.c"))) World.empty).1 =
      .error (.text "too much email given") ∧
    ((NewEmailable "key").BatchVerify Env.accepting
        ((NewEmailable "key").NewBatchReq (.of (List.replicate 1001 "a@b.c"))) World.empty).2.sent =
      World.empty.sent :=
  ⟨by
      show (List.replicate 1001 "a@b.c").length > 1000
      rw [List.length_replicate]
      decide,
    BatchVerify_over_1000 Env.accepting (NewEmailable "key")
      ((NewEmailable "key").NewBatchReq (.of (List.replicate 1001 "a@b.c"))) World.empty
      (by
        show (List.replicate 1001 "a@b.c").length > 1000
        rw [List.length_replicate]
        decide)⟩

/-- C10: for every `BatchRequest`, the JSON object `BatchVerify` posts has exactly the
members `emails`, `url`, `retries`, `string`, `api_key`; the `Simulate` selector is the
value of the member `string`; there is no member `simulate`; and the one request
`BatchVerify` issues (none when there are more than 1000 addresses) is the POST of that
object. -/
theorem BatchVerify_body_keys (env : Env) (emailable : Emailable) (req : BatchRequest)
    (w : World) :
    JsonObject.keys req.marshal = ["emails", "url", "retries", "string", "api_key"] ∧
      JsonObject.member req.marshal "string" = some (.string req.Simulate) ∧
      JsonObject.member req.marshal "simulate" = none ∧
      "simulate" ∉ JsonObject.keys req.marshal ∧
      (emailable.BatchVerify env req w).2.sent =
        w.sent ++ (if req.Emails.len > 1000 then []
          else [.post (base_url ++ "/batch") "application/json" req.marshal]) := by
  refine ⟨rfl, ?_, ?_, ?_, BatchVerify_sent env emailable req w⟩
  · simp [JsonObject.member, BatchRequest.marshal, List.find?]
  · simp [JsonObject.member, BatchRequest.marshal, List.find?]
  · simp [JsonObject.keys, BatchRequest.marshal]

/-! ## Credentials -/

/-- C8, as stated, fails: a `BatchRequest` filled in by the caller with a key other than
the client's is posted with the caller's key, not the client's. -/
theorem BatchVerify_credential_counterexample :
    ((NewEmailable "client-key").BatchVerify Env.accepting
        { Emails := .of ["a@b.c"], Url := "", Retries := false, Simulate := "",
          ApiKey := "other-key" } World.empty).2.sent.map HttpRequest.credentials =
      [[.string "other-key"]] ∧
    ((NewEmailable "client-key").BatchVerify Env.accepting
        { Emails := .of ["a@b.c"], Url := "", Retries := false, Simulate := "",
          ApiKey := "other-key" } World.empty).2.sent.map HttpRequest.credentials ≠
      [[.string "client-key"]] := by
  constructor
  · rw [BatchVerify_sent]
    decide
  · rw [BatchVerify_sent]
    decide

/-- C8, amended: for a client built by `NewEmailable k`, the one request `Verify` issues
carries exactly one credential value, `k`, whatever the request's own `ApiKey`; every
request `BatchVerify` or `BatchStatus` issues carries exactly one credential value, the
`ApiKey` field of the request passed in; and the three `New*Req` helpers set that field
to `k`. -/
theorem credentials_carried (env : Env) (k : String) (w : World) :
    (∀ req : VerifyRequest,
        ((NewEmailable k).Verify env req w).2.sent =
          w.sent ++ [(NewEmailable k).verifyHttpRequest req] ∧
        ((NewEmailable k).verifyHttpRequest req).credentials = [.string k]) ∧
    (∀ req : BatchRequest,
        ((NewEmailable k).BatchVerify env req w).2.sent =
          w.sent ++ (if req.Emails.len > 1000 then []
            else [.post (base_url ++ "/batch") "application/json" req.marshal]) ∧
        (HttpRequest.post (base_url ++ "/batch") "application/json" req.marshal).credentials =
          [.string req.ApiKey]) ∧
    (∀ req : BatchStatusRequest,
        ((NewEmailable k).BatchStatus env req w).2.sent =
          w.sent ++ [(NewEmailable k).batchStatusHttpRequest req] ∧
        ((NewEmailable k).batchStatusHttpRequest req).credentials = [.string req.ApiKey]) ∧
    (∀ email, ((NewEmailable k).NewVerifyReq email).ApiKey = k) ∧
    (∀ emails, ((NewEmailable k).NewBatchReq emails).ApiKey = k) ∧
    (∀ id, ((NewEmailable k).NewBatchVerificationReq id).ApiKey = k) := by
  refine ⟨?_, ?_, ?_, fun _ => rfl, fun _ => rfl, fun _ => rfl⟩
  · intro req
    refine ⟨by rw [Verify_world], ?_⟩
    rw [verifyHttpRequest_eq]
    simp [HttpRequest.credentials, Values.get, api_key_param, NewEmailable]
  · intro req
    refine ⟨BatchVerify_sent env _ req w, ?_⟩
    simp [HttpRequest.credentials, BatchRequest.marshal, api_key_param, List.filter]
  · intro req
    refine ⟨by rw [BatchStatus_world], batchStatusHttpRequest_credentials _ req⟩

/-! ## The loop of BatchFromFile -/

/-- An iteration that finds the buffer not full only filters the line. -/
theorem scanLoop_cons_not_full (env : Env) (emailable : Emailable) (email : String)
    (rest : List String) (s : ScanState) (w : World) (h : s.buffer.len ≠ maxSize) :
    emailable.scanLoop env (email :: rest) s w =
      emailable.scanLoop env rest
        (if env.parseAddress email then { s with buffer := s.buffer.append email } else s) w := by
  rw [Emailable.scanLoop]
  unfold Emailable.scanStep
  simp only [h, if_false]
  split_ifs <;> rfl

/-- An iteration that finds the buffer full and whose flush fails ends the loop. -/
theorem scanLoop_cons_full_error (env : Env) (emailable : Emailable) (email : String)
    (rest : List String) (s : ScanState) (w : World) (err : Error)
    (h : s.buffer.len = maxSize)
    (hf : (emailable.BatchVerify env (emailable.NewBatchReq s.buffer) w).1 = .error err) :
    emailable.scanLoop env (email :: rest) s w =
      (.error err, (emailable.BatchVerify env (emailable.NewBatchReq s.buffer) w).2) := by
  rw [Emailable.scanLoop]
  unfold Emailable.scanStep
  simp only [h, if_true]
  generalize emailable.BatchVerify env (emailable.NewBatchReq s.buffer) w = r at hf
  obtain ⟨out, w1⟩ := r
  simp only at hf
  subst hf
  rfl

/-- An iteration that finds the buffer full and whose flush succeeds restarts the buffer. -/
theorem scanLoop_cons_full_ok (env : Env) (emailable : Emailable) (email : String)
    (rest : List String) (s : ScanState) (w : World) (resp : BatchResponse)
    (h : s.buffer.len = maxSize)
    (hf : (emailable.BatchVerify env (emailable.NewBatchReq s.buffer) w).1 = .ok resp) :
    emailable.scanLoop env (email :: rest) s w =
      emailable.scanLoop env rest
        (if env.parseAddress email then
          { buffer := StringSlice.nil.append email, results := s.results ++ [resp] }
        else { buffer := .nil, results := s.results ++ [resp] })
        (emailable.BatchVerify env (emailable.NewBatchReq s.buffer) w).2 := by
  rw [Emailable.scanLoop]
  unfold Emailable.scanStep
  simp only [h, if_true]
  generalize emailable.BatchVerify env (emailable.NewBatchReq s.buffer) w = r at hf
  obtain ⟨out, w1⟩ := r
  simp only at hf
  subst hf
  dsimp only
  split_ifs <;> rfl

/-- The loop over `pre ++ post` is the loop over `pre` followed, unless it returned
early, by the loop over `post` from the state reached. -/
theorem scanLoop_append (env : Env) (emailable : Emailable) (pre post : List String)
    (s : ScanState) (w : World) :
    emailable.scanLoop env (pre ++ post) s w =
      match emailable.scanLoop env pre s w with
      | (.error err, w1) => (.error err, w1)
      | (.ok s1, w1) => emailable.scanLoop env post s1 w1 := by
  induction pre generalizing s w with
  | nil => rfl
  | cons email rest ih =>
    rw [List.cons_append, Emailable.scanLoop, Emailable.scanLoop]
    generalize emailable.scanStep env email s w = r
    obtain ⟨out, w1⟩ := r
    cases out with
    | error err => rfl
    | ok s1 => exact ih s1 w1

/-- A request that passes the size check is posted. -/
theorem BatchVerify_sent_small (env : Env) (emailable : Emailable) (req : BatchRequest)
    (w : World) (h : req.Emails.len ≤ 1000) :
    (emailable.BatchVerify env req w).2.sent = w.sent ++ [batchPost req] := by
  rw [BatchVerify_sent, if_neg (by omega)]
  rfl

theorem append_len (b : StringSlice) (x : String) : (b.append x).len = b.len + 1 := by
  simp [StringSlice.append, StringSlice.len, StringSlice.elems]

theorem append_elems (b : StringSlice) (x : String) : (b.append x).elems = b.elems ++ [x] := rfl

theorem elems_nil : StringSlice.nil.elems = [] := rfl

/-- What the loop does, from any state whose buffer is within bounds: the invocations
`new` it adds to the call trace are each posted, each carries exactly `maxSize` addresses
in a default request, and together with the addresses still `pending` they are the old
buffer followed by the accepted lines, in order.  When the loop ends normally the pending
addresses are the buffer, which is within bounds, and the responses gathered are those of
`new`; when it returns early with `err`, that is the error of an invocation in `new`. -/
theorem scanLoop_spec (env : Env) (emailable : Emailable) (lines : List String) (s : ScanState)
    (w : World) (hb : s.buffer.len ≤ maxSize) :
    ∃ (new : List (BatchRequest × Except Error BatchResponse)) (pending : List String),
      (emailable.scanLoop env lines s w).2.calls = w.calls ++ new ∧
      (emailable.scanLoop env lines s w).2.sent = w.sent ++ new.map (fun c => batchPost c.1) ∧
      (new.map callEmails).flatten ++ pending = s.buffer.elems ++ lines.filter env.parseAddress ∧
      (∀ c ∈ new, (callEmails c).length = maxSize ∧ c.1 = emailable.NewBatchReq c.1.Emails) ∧
      (∀ s1, (emailable.scanLoop env lines s w).1 = .ok s1 →
        s1.buffer.elems = pending ∧ s1.buffer.len ≤ maxSize ∧
        ∃ rs, s1.results = s.results ++ rs ∧ new.map Prod.snd = rs.map Except.ok) ∧
      (∀ err, (emailable.scanLoop env lines s w).1 = .error err →
        ∃ c ∈ new, c.2 = .error err) := by
  induction lines generalizing s w with
  | nil =>
    refine ⟨[], s.buffer.elems, ?_, ?_, ?_, ?_, ?_, ?_⟩
    · simp [Emailable.scanLoop]
    · simp [Emailable.scanLoop]
    · simp
    · intro c hc
      cases hc
    · intro s1 h1
      simp only [Emailable.scanLoop, Except.ok.injEq] at h1
      subst h1
      exact ⟨rfl, hb, [], by simp, by simp⟩
    · intro err h1
      simp [Emailable.scanLoop] at h1
  | cons email rest ih =>
    by_cases hfull : s.buffer.len = maxSize
    · cases hf : (emailable.BatchVerify env (emailable.NewBatchReq s.buffer) w).1 with
      | error err =>
        rw [scanLoop_cons_full_error env emailable email rest s w err hfull hf]
        refine ⟨[(emailable.NewBatchReq s.buffer, .error err)],
          (email :: rest).filter env.parseAddress, ?_, ?_, ?_, ?_, ?_, ?_⟩
        · rw [BatchVerify_calls, hf]
        · rw [BatchVerify_sent_small]
          · rfl
          · show s.buffer.len ≤ 1000
            rw [hfull]
            decide
        · simp [callEmails, Emailable.NewBatchReq]
        · intro c hc
          simp only [List.mem_singleton] at hc
          subst hc
          exact ⟨hfull, rfl⟩
        · intro s1 h1
          cases h1
        · intro err1 h1
          simp only [Except.error.injEq] at h1
          subst h1
          exact ⟨_, List.mem_singleton.mpr rfl, rfl⟩
      | ok resp =>
        rw [scanLoop_cons_full_ok env emailable email rest s w resp hfull hf]
        have hb1 : (if env.parseAddress email then
            ({ buffer := StringSlice.nil.append email, results := s.results ++ [resp] } :
              ScanState)
            else { buffer := .nil, results := s.results ++ [resp] }).buffer.len ≤ maxSize := by
          split_ifs
          · show (StringSlice.nil.append email).len ≤ maxSize
            rw [append_len]
            decide
          · show StringSlice.nil.len ≤ maxSize
            decide
        obtain ⟨new, pending, hcalls, hsent, hflat, hall, hok, herr⟩ :=
          ih _ (emailable.BatchVerify env (emailable.NewBatchReq s.buffer) w).2 hb1
        refine ⟨(emailable.NewBatchReq s.buffer, .ok resp) :: new, pending, ?_, ?_, ?_, ?_, ?_, ?_⟩
        · rw [hcalls, BatchVerify_calls, hf]
          simp
        · rw [hsent, BatchVerify_sent_small]
          · simp
          · show s.buffer.len ≤ 1000
            rw [hfull]
            decide
        · simp only [List.map_cons, List.flatten_cons, List.append_assoc, hflat]
          by_cases hv : env.parseAddress email = true
          · simp [hv, callEmails, Emailable.NewBatchReq, append_elems, elems_nil,
              List.filter_cons]
          · simp [hv, callEmails, Emailable.NewBatchReq, elems_nil, List.filter_cons]
        · intro c hc
          rcases List.mem_cons.mp hc with rfl | hc
          · exact ⟨hfull, rfl⟩
          · exact hall c hc
        · intro s1 h1
          obtain ⟨h2, h3, rs, h4, h5⟩ := hok s1 h1
          refine ⟨h2, h3, resp :: rs, ?_, ?_⟩
          · rw [h4]
            split_ifs <;> simp
          · simp [h5]
        · intro err1 h1
          obtain ⟨c, hc, hce⟩ := herr err1 h1
          exact ⟨c, List.mem_cons_of_mem _ hc, hce⟩
    · rw [scanLoop_cons_not_full env emailable email rest s w hfull]
      have hb1 : (if env.parseAddress email then { s with buffer := s.buffer.append email }
          else s).buffer.len ≤ maxSize := by
        split_ifs
        · show (s.buffer.append email).len ≤ maxSize
          rw [append_len]
          omega
        · exact hb
      obtain ⟨new, pending, hcalls, hsent, hflat, hall, hok, herr⟩ := ih _ w hb1
      refine ⟨new, pending, hcalls, hsent, ?_, hall, ?_, herr⟩
      · rw [hflat]
        by_cases hv : env.parseAddress email = true
        · simp [hv, append_elems, List.filter_cons]
        · simp [hv, List.filter_cons]
      · intro s1 h1
        obtain ⟨h2, h3, rs, h4, h5⟩ := hok s1 h1
        refine ⟨h2, h3, rs, ?_, h5⟩
        rw [h4]
        split_ifs <;> rfl

/-! ## BatchFromFile as a whole -/

theorem BatchFromFile_of_loop_error (env : Env) (emailable : Emailable) (file : List String)
    (w : World) (err : Error)
    (h : (emailable.scanLoop env file ScanState.init w).1 = .error err) :
    emailable.BatchFromFile env file w =
      (.error err, (emailable.scanLoop env file ScanState.init w).2) := by
  unfold Emailable.BatchFromFile
  generalize emailable.scanLoop env file ScanState.init w = r at h
  obtain ⟨out, w1⟩ := r
  simp only at h
  subst h
  rfl

theorem BatchFromFile_of_loop_ok (env : Env) (emailable : Emailable) (file : List String)
    (w : World) (s : ScanState)
    (h : (emailable.scanLoop env file ScanState.init w).1 = .ok s) :
    emailable.BatchFromFile env file w =
      emailable.finalFlush env s (emailable.scanLoop env file ScanState.init w).2 := by
  unfold Emailable.BatchFromFile
  generalize emailable.scanLoop env file ScanState.init w = r at h
  obtain ⟨out, w1⟩ := r
  simp only at h
  subst h
  rfl

theorem finalFlush_of_empty (env : Env) (emailable : Emailable) (s : ScanState) (w : World)
    (h : s.buffer.len = 0) : emailable.finalFlush env s w = (.ok s.results, w) := by
  unfold Emailable.finalFlush
  simp [h]

theorem finalFlush_of_ok (env : Env) (emailable : Emailable) (s : ScanState) (w : World)
    (resp : BatchResponse) (h : 0 < s.buffer.len)
    (hf : (emailable.BatchVerify env (emailable.NewBatchReq s.buffer) w).1 = .ok resp) :
    emailable.finalFlush env s w =
      (.ok (s.results ++ [resp]),
        (emailable.BatchVerify env (emailable.NewBatchReq s.buffer) w).2) := by
  unfold Emailable.finalFlush
  simp only [gt_iff_lt, h, if_true]
  generalize emailable.BatchVerify env (emailable.NewBatchReq s.buffer) w = r at hf
  obtain ⟨out, w1⟩ := r
  simp only at hf
  subst hf
  rfl

theorem finalFlush_of_error (env : Env) (emailable : Emailable) (s : ScanState) (w : World)
    (err : Error) (h : 0 < s.buffer.len)
    (hf : (emailable.BatchVerify env (emailable.NewBatchReq s.buffer) w).1 = .error err) :
    emailable.finalFlush env s w =
      (.ok s.results, (emailable.BatchVerify env (emailable.NewBatchReq s.buffer) w).2) := by
  unfold Emailable.finalFlush
  simp only [gt_iff_lt, h, if_true]
  generalize emailable.BatchVerify env (emailable.NewBatchReq s.buffer) w = r at hf
  obtain ⟨out, w1⟩ := r
  simp only at hf
  subst hf
  rfl

theorem filterMap_callResponse_of_ok (new : List (BatchRequest × Except Error BatchResponse))
    (rs : List BatchResponse) (h : new.map Prod.snd = rs.map Except.ok) :
    new.filterMap callResponse = rs := by
  induction new generalizing rs with
  | nil =>
    cases rs with
    | nil => rfl
    | cons r rs => simp at h
  | cons c new ih =>
    cases rs with
    | nil => simp at h
    | cons r rs =>
      simp only [List.map_cons, List.cons.injEq] at h
      obtain ⟨h1, h2⟩ := h
      have hc : callResponse c = some r := by
        unfold callResponse
        rw [h1]
      rw [List.filterMap_cons, hc, ih rs h2]

theorem map_snd_of_all_succeeded (new : List (BatchRequest × Except Error BatchResponse))
    (h : ∀ c ∈ new, callSucceeded c = true) :
    new.map Prod.snd = (new.filterMap callResponse).map Except.ok := by
  induction new with
  | nil => rfl
  | cons c new ih =>
    have hc := h c (List.mem_cons_self _ _)
    have ih1 := ih (fun d hd => h d (List.mem_cons_of_mem _ hd))
    obtain ⟨req, out⟩ := c
    cases out with
    | error err => simp [callSucceeded] at hc
    | ok resp =>
      simp only [List.map_cons, List.filterMap_cons, callResponse]
      rw [ih1]

/-- What `BatchFromFile` does, whatever the answers of the service. -/
theorem BatchFromFile_spec (env : Env) (emailable : Emailable) (file : List String) (w : World) :
    ∃ (new : List (BatchRequest × Except Error BatchResponse)) (pending : List String),
      (emailable.BatchFromFile env file w).2.calls = w.calls ++ new ∧
      (emailable.BatchFromFile env file w).2.sent = w.sent ++ new.map (fun c => batchPost c.1) ∧
      (new.map callEmails).flatten ++ pending = file.filter env.parseAddress ∧
      (∀ c ∈ new, 0 < (callEmails c).length ∧ (callEmails c).length ≤ maxSize ∧
        c.1 = emailable.NewBatchReq c.1.Emails) ∧
      (∀ c ∈ new.dropLast, (callEmails c).length = maxSize) ∧
      (∀ rs, (emailable.BatchFromFile env file w).1 = .ok rs →
        pending = [] ∧ rs = new.filterMap callResponse) ∧
      (∀ err, (emailable.BatchFromFile env file w).1 = .error err →
        ∃ c ∈ new, c.2 = .error err) := by
  obtain ⟨new, pending, hcalls, hsent, hflat, hall, hok, herr⟩ :=
    scanLoop_spec env emailable file ScanState.init w (by decide)
  have hall2 : ∀ c ∈ new, 0 < (callEmails c).length ∧ (callEmails c).length ≤ maxSize ∧
      c.1 = emailable.NewBatchReq c.1.Emails := by
    intro c hc
    obtain ⟨h1, h2⟩ := hall c hc
    rw [h1]
    exact ⟨by decide, le_refl _, h2⟩
  have hinit : ScanState.init.buffer.elems = [] := rfl
  rw [hinit, List.nil_append] at hflat
  cases hl : (emailable.scanLoop env file ScanState.init w).1 with
  | error err =>
    rw [BatchFromFile_of_loop_error env emailable file w err hl]
    refine ⟨new, pending, hcalls, hsent, hflat, hall2, ?_, ?_, ?_⟩
    · intro c hc
      exact (hall c (List.mem_of_mem_dropLast hc)).1
    · intro rs h
      cases h
    · intro err1 h
      simp only [Except.error.injEq] at h
      subst h
      exact herr err hl
  | ok s1 =>
    obtain ⟨hpend, hlen, rs, hrs, hmap⟩ := hok s1 hl
    have hinitr : ScanState.init.results = [] := rfl
    rw [hinitr, List.nil_append] at hrs
    have hfm := filterMap_callResponse_of_ok new rs hmap
    rw [BatchFromFile_of_loop_ok env emailable file w s1 hl]
    by_cases hempty : s1.buffer.len = 0
    · rw [finalFlush_of_empty env emailable s1 _ hempty]
      have hp : pending = [] := by
        rw [← hpend]
        exact List.length_eq_zero.mp hempty
      refine ⟨new, pending, hcalls, hsent, hflat, hall2, ?_, ?_, ?_⟩
      · intro c hc
        exact (hall c (List.mem_of_mem_dropLast hc)).1
      · intro rs1 h
        simp only [Except.ok.injEq] at h
        rw [← h, hrs, hfm]
        exact ⟨hp, rfl⟩
      · intro err h
        cases h
    · have hpos : 0 < s1.buffer.len := Nat.pos_of_ne_zero hempty
      have hw : (emailable.finalFlush env s1
          (emailable.scanLoop env file ScanState.init w).2).2 =
          (emailable.BatchVerify env (emailable.NewBatchReq s1.buffer)
            (emailable.scanLoop env file ScanState.init w).2).2 := by
        cases hf : (emailable.BatchVerify env (emailable.NewBatchReq s1.buffer)
            (emailable.scanLoop env file ScanState.init w).2).1 with
        | error err => rw [finalFlush_of_error env emailable s1 _ err hpos hf]
        | ok resp => rw [finalFlush_of_ok env emailable s1 _ resp hpos hf]
      refine ⟨new ++ [(emailable.NewBatchReq s1.buffer,
          (emailable.BatchVerify env (emailable.NewBatchReq s1.buffer)
            (emailable.scanLoop env file ScanState.init w).2).1)], [], ?_, ?_, ?_, ?_, ?_, ?_, ?_⟩
      · rw [hw, BatchVerify_calls, hcalls, List.append_assoc]
      · rw [hw, BatchVerify_sent_small, hsent]
        · simp
        · show s1.buffer.len ≤ 1000
          have : maxSize = 999 := rfl
          omega
      · rw [← hflat, ← hpend]
        simp [callEmails, Emailable.NewBatchReq]
      · intro c hc
        rcases List.mem_append.mp hc with hc | hc
        · exact hall2 c hc
        · simp only [List.mem_singleton] at hc
          subst hc
          exact ⟨hpos, hlen, rfl⟩
      · intro c hc
        rw [List.dropLast_concat] at hc
        exact (hall c hc).1
      · intro rs1 h
        refine ⟨rfl, ?_⟩
        cases hf : (emailable.BatchVerify env (emailable.NewBatchReq s1.buffer)
            (emailable.scanLoop env file ScanState.init w).2).1 with
        | error err =>
          rw [finalFlush_of_error env emailable s1 _ err hpos hf] at h
          simp only [Except.ok.injEq] at h
          rw [← h, hrs]
          simp [List.filterMap_append, hfm, callResponse]
        | ok resp =>
          rw [finalFlush_of_ok env emailable s1 _ resp hpos hf] at h
          simp only [Except.ok.injEq] at h
          rw [← h, hrs]
          simp [List.filterMap_append, hfm, callResponse]
      · intro err h
        cases hf : (emailable.BatchVerify env (emailable.NewBatchReq s1.buffer)
            (emailable.scanLoop env file ScanState.init w).2).1 with
        | error err1 =>
          rw [finalFlush_of_error env emailable s1 _ err1 hpos hf] at h
          cases h
        | ok resp =>
          rw [finalFlush_of_ok env emailable s1 _ resp hpos hf] at h
          cases h

/-! ## Chunks -/

/-- Splitting off a first block of 999 entries. -/
theorem chunks_cons (c ys : List String) (hc : c.length = 999) :
    (List.range (((c ++ ys).length + 998) / 999)).map
        (fun i => ((c ++ ys).drop (999 * i)).take 999) =
      c :: (List.range ((ys.length + 998) / 999)).map (fun i => (ys.drop (999 * i)).take 999) := by
  have hlen : ((c ++ ys).length + 998) / 999 = (ys.length + 998) / 999 + 1 := by
    rw [List.length_append, hc]
    omega
  rw [hlen, List.range_succ_eq_map, List.map_cons, List.map_map]
  congr 1
  · rw [Nat.mul_zero, List.drop_zero, List.take_left' hc]
  · apply List.map_congr_left
    intro i _
    show ((c ++ ys).drop (999 * (i + 1))).take 999 = (ys.drop (999 * i)).take 999
    have h : 999 * (i + 1) = c.length + 999 * i := by omega
    rw [h, List.drop_append]

/-- Blocks that are non-empty, hold at most 999 entries, and hold exactly 999 entries
except possibly the last, are the consecutive blocks of 999 of their concatenation. -/
theorem chunks_unique (cs : List (List String)) (xs : List String) (hflat : cs.flatten = xs)
    (hpos : ∀ c ∈ cs, 0 < c.length ∧ c.length ≤ 999)
    (hfull : ∀ c ∈ cs.dropLast, c.length = 999) :
    cs = (List.range ((xs.length + 998) / 999)).map (fun i => (xs.drop (999 * i)).take 999) := by
  induction cs generalizing xs with
  | nil =>
    subst hflat
    rfl
  | cons c cs ih =>
    subst hflat
    cases cs with
    | nil =>
      obtain ⟨h1, h2⟩ := hpos c (List.mem_singleton.mpr rfl)
      have hlen : (([c] : List (List String)).flatten.length + 998) / 999 = 1 := by
        simp only [List.flatten_cons, List.flatten_nil, List.append_nil]
        omega
      rw [hlen]
      have hr : List.range 1 = [0] := rfl
      simp only [List.flatten_cons, List.flatten_nil, List.append_nil, hr,
        List.map_cons, List.map_nil, Nat.mul_zero, List.drop_zero]
      rw [List.take_of_length_le h2]
    | cons c2 t =>
      have hc : c.length = 999 := by
        apply hfull
        simp
      rw [List.flatten_cons, chunks_cons c _ hc]
      congr 1
      apply ih _ rfl
      · intro d hd
        exact hpos d (List.mem_cons_of_mem _ hd)
      · intro d hd
        apply hfull
        simp only [List.dropLast_cons₂, List.mem_cons]
        exact Or.inr hd

theorem slice_eq_of_pos (b : StringSlice) (h : 0 < b.elems.length) : b = .of b.elems := by
  cases b with
  | nil => simp [StringSlice.elems] at h
  | of xs => rfl

/-- While there is room, accepted lines are appended to the buffer and nothing is
submitted. -/
theorem scanLoop_fill (env : Env) (emailable : Emailable) (lines : List String) (s : ScanState)
    (w : World) (hvalid : ∀ line ∈ lines, env.parseAddress line = true)
    (hroom : s.buffer.len + lines.length ≤ maxSize) (hs : s.buffer = .of s.buffer.elems) :
    emailable.scanLoop env lines s w =
      (.ok { s with buffer := .of (s.buffer.elems ++ lines) }, w) := by
  induction lines generalizing s with
  | nil =>
    rw [List.append_nil, ← hs]
    rfl
  | cons email rest ih =>
    have hlt : s.buffer.len ≠ maxSize := by
      simp only [List.length_cons] at hroom
      omega
    rw [scanLoop_cons_not_full env emailable email rest s w hlt,
      if_pos (hvalid email (List.mem_cons_self _ _))]
    rw [ih _ (fun l hl => hvalid l (List.mem_cons_of_mem _ hl))]
    · simp [append_elems]
    · show (s.buffer.append email).len + rest.length ≤ maxSize
      rw [append_len]
      simp only [List.length_cons] at hroom
      omega
    · rfl

/-! ## BatchFromFile: the properties -/

set_option maxRecDepth 100000

/-- C3, as stated, fails: on 1000 accepted lines with an unreachable service, the flush
triggered by the 1000th line fails and `BatchFromFile` stops, having handed 999 addresses
to `BatchVerify` while the parser accepts 1000 lines. -/
theorem BatchFromFile_total_counterexample :
    ((((NewEmailable "key").BatchFromFile Env.unreachable (List.replicate 1000 "a@b.c")
        World.empty).2.calls.map (fun c => (callEmails c).length)).sum = 999) ∧
    ((List.replicate 1000 "a@b.c").filter Env.unreachable.parseAddress).length = 1000 ∧
    (NewEmailable "key").BatchFromFile Env.unreachable (List.replicate 1000 "a@b.c") World.empty =
      (.error (.transport "dial tcp: connection refused"),
        ((NewEmailable "key").BatchFromFile Env.unreachable (List.replicate 1000 "a@b.c")
          World.empty).2) := by
  refine ⟨by decide, by decide, by rfl⟩

/-- Over the tokens of the scanner: only accepted tokens reach a buffer handed to
`BatchVerify`, and when `BatchFromFile` returns without error the buffers hold as many
addresses as there are accepted tokens. -/
theorem BatchFromFile_tokens_accepted (env : Env) (emailable : Emailable)
    (file : List String) (w : World) :
    ∃ new : List (BatchRequest × Except Error BatchResponse),
      (emailable.BatchFromFile env file w).2.calls = w.calls ++ new ∧
      (∀ c ∈ new, ∀ x ∈ callEmails c, x ∈ file ∧ env.parseAddress x = true) ∧
      ((∃ rs, (emailable.BatchFromFile env file w).1 = .ok rs) →
        (new.map (fun c => (callEmails c).length)).sum =
          (file.filter env.parseAddress).length) := by
  obtain ⟨new, pending, hcalls, _, hflat, _, _, hok, _⟩ :=
    BatchFromFile_spec env emailable file w
  refine ⟨new, hcalls, ?_, ?_⟩
  · intro c hc x hx
    have hmem : x ∈ (new.map callEmails).flatten ++ pending := by
      apply List.mem_append_left
      rw [List.mem_flatten]
      exact ⟨callEmails c, List.mem_map_of_mem _ hc, hx⟩
    rw [hflat, List.mem_filter] at hmem
    exact hmem
  · rintro ⟨rs, hrs⟩
    obtain ⟨hp, _⟩ := hok rs hrs
    rw [hp, List.append_nil] at hflat
    rw [← hflat, List.length_flatten, List.map_map]
    rfl

/-- C4: for every input and whatever the outcome of each submission: the run of the loop
of `BatchFromFile` over the input passes, after any number `k` of lines, through the
state the loop reaches on the first `k` lines; in every such state the pending buffer
holds at most 999 entries; and every buffer handed to `BatchVerify` holds at most 999
entries. -/
theorem BatchFromFile_buffer_bounded (env : Env) (emailable : Emailable) (file : List String)
    (w : World) :
    (∀ k : Nat,
        emailable.scanLoop env file ScanState.init w =
          match emailable.scanLoop env (file.take k) ScanState.init w with
          | (.error err, w1) => (.error err, w1)
          | (.ok s, w1) => emailable.scanLoop env (file.drop k) s w1) ∧
    (∀ (k : Nat) (s : ScanState) (w1 : World),
        emailable.scanLoop env (file.take k) ScanState.init w = (.ok s, w1) →
        s.buffer.len ≤ 999) ∧
    ∃ new : List (BatchRequest × Except Error BatchResponse),
      (emailable.BatchFromFile env file w).2.calls = w.calls ++ new ∧
      ∀ c ∈ new, c.1.Emails.len ≤ 999 := by
  refine ⟨?_, ?_, ?_⟩
  · intro k
    conv_lhs => rw [← List.take_append_drop k file]
    exact scanLoop_append env emailable (file.take k) (file.drop k) ScanState.init w
  · intro k s w1 h
    obtain ⟨_, _, _, _, _, _, hok, _⟩ :=
      scanLoop_spec env emailable (file.take k) ScanState.init w (by decide)
    exact (hok s (by rw [h])).2.1
  · obtain ⟨new, _, hcalls, _, _, hall, _, _, _⟩ := BatchFromFile_spec env emailable file w
    exact ⟨new, hcalls, fun c hc => (hall c hc).2.1⟩

/-- Over the tokens of the scanner: when there is at least one token, all are accepted
and every `BatchVerify` invocation succeeds, the invocations are the consecutive blocks
of 999 tokens, each posted as one default request and answered by one response. -/
theorem BatchFromFile_tokens_chunks (env : Env) (emailable : Emailable) (file : List String)
    (w : World) (hne : 1 ≤ file.length)
    (hvalid : ∀ line ∈ file, env.parseAddress line = true)
    (hsucc : ∀ c ∈ (emailable.BatchFromFile env file w).2.calls.drop w.calls.length,
      callSucceeded c = true) :
    ∃ (new : List (BatchRequest × Except Error BatchResponse)) (rs : List BatchResponse),
      (emailable.BatchFromFile env file w).2.calls = w.calls ++ new ∧
      (emailable.BatchFromFile env file w).2.sent = w.sent ++ new.map (fun c => batchPost c.1) ∧
      (emailable.BatchFromFile env file w).1 = .ok rs ∧
      new.length = (file.length + 998) / 999 ∧
      1 ≤ new.length ∧
      new.map callEmails =
        (List.range ((file.length + 998) / 999)).map (fun i => (file.drop (999 * i)).take 999) ∧
      (∀ c ∈ new, c.1 = emailable.NewBatchReq (.of (callEmails c))) ∧
      new.map Prod.snd = rs.map Except.ok ∧
      rs.length = new.length ∧
      (file.length = 1500 → new.map (fun c => (callEmails c).length) = [999, 501]) := by
  obtain ⟨new, pending, hcalls, hsent, hflat, hall, hfull, hok, herr⟩ :=
    BatchFromFile_spec env emailable file w
  rw [hcalls, List.drop_left] at hsucc
  have hfilter : file.filter env.parseAddress = file := List.filter_eq_self.mpr hvalid
  rw [hfilter] at hflat
  cases hres : (emailable.BatchFromFile env file w).1 with
  | error err =>
    obtain ⟨c, hc, hce⟩ := herr err hres
    have := hsucc c hc
    simp [callSucceeded, hce] at this
  | ok rs =>
    obtain ⟨hp, hrs⟩ := hok rs hres
    rw [hp, List.append_nil] at hflat
    have hchunks := chunks_unique (new.map callEmails) file hflat
      (by
        intro d hd
        obtain ⟨c, hc, rfl⟩ := List.mem_map.mp hd
        exact ⟨(hall c hc).1, (hall c hc).2.1⟩)
      (by
        intro d hd
        rw [← List.map_dropLast] at hd
        obtain ⟨c, hc, rfl⟩ := List.mem_map.mp hd
        exact hfull c hc)
    have hlen : new.length = (file.length + 998) / 999 := by
      have := congrArg List.length hchunks
      simpa using this
    have hmap : new.map Prod.snd = rs.map Except.ok := by
      rw [hrs]
      exact map_snd_of_all_succeeded new hsucc
    refine ⟨new, rs, hcalls, hsent, rfl, hlen, ?_, hchunks, ?_, hmap, ?_, ?_⟩
    · rw [hlen]
      omega
    · intro c hc
      obtain ⟨h1, _, h3⟩ := hall c hc
      rw [h3]
      congr 1
      exact slice_eq_of_pos c.1.Emails h1
    · have := congrArg List.length hmap
      simpa using this.symm
    · intro h1500
      have h := congrArg (List.map List.length) hchunks
      rw [List.map_map] at h
      have hr : List.range ((1500 + 998) / 999) = [0, 1] := by decide
      rw [h1500, hr] at h
      simp only [List.map_cons, List.map_nil, List.length_take, List.length_drop, h1500] at h
      exact h

/-- C6: if, after the lines `pre`, the loop of `BatchFromFile` holds a full buffer (999
entries) and the flush triggered by reading a further line fails with `err`, then
`BatchFromFile` returns `err` and no results, and ends in the world that failed
invocation left: nothing is submitted after it, whatever lines follow. -/
theorem BatchFromFile_midstream_failure (env : Env) (emailable : Emailable)
    (pre : List String) (line : String) (post : List String) (w : World) (s : ScanState)
    (w1 : World) (err : Error) (w2 : World)
    (hpre : emailable.scanLoop env pre ScanState.init w = (.ok s, w1))
    (hfull : s.buffer.len = 999)
    (hfail : emailable.BatchVerify env (emailable.NewBatchReq s.buffer) w1 = (.error err, w2)) :
    emailable.BatchFromFile env (pre ++ line :: post) w = (.error err, w2) ∧
      w2.calls = w1.calls ++ [(emailable.NewBatchReq s.buffer, .error err)] ∧
      w2.sent = w1.sent ++ [batchPost (emailable.NewBatchReq s.buffer)] := by
  have hloop : emailable.scanLoop env (pre ++ line :: post) ScanState.init w =
      (.error err, w2) := by
    rw [scanLoop_append, hpre]
    dsimp only
    rw [scanLoop_cons_full_error env emailable line post s w1 err hfull (by rw [hfail]), hfail]
  refine ⟨?_, ?_, ?_⟩
  · rw [BatchFromFile_of_loop_error env emailable _ w err (by rw [hloop]), hloop]
  · have h := BatchVerify_calls env emailable (emailable.NewBatchReq s.buffer) w1
    rw [hfail] at h
    exact h
  · have h := BatchVerify_sent_small env emailable (emailable.NewBatchReq s.buffer) w1
      (by
        show s.buffer.len ≤ 1000
        omega)
    rw [hfail] at h
    exact h

/-- C6, instance: 999 accepted lines, then two more, on an unreachable service: the one
invocation made is the failed flush of the first 999 lines. -/
theorem BatchFromFile_midstream_failure_witness :
    (NewEmailable "key").BatchFromFile Env.unreachable
        (List.replicate 999 "a@b.c" ++ "x@y.z" :: ["p@q.r"]) World.empty =
      (.error (.transport "dial tcp: connection refused"),
        World.mk [batchPost ((NewEmailable "key").NewBatchReq (.of (List.replicate 999 "a@b.c")))]
          [((NewEmailable "key").NewBatchReq (.of (List.replicate 999 "a@b.c")),
            .error (.transport "dial tcp: connection refused"))]) :=
  (BatchFromFile_midstream_failure Env.unreachable (NewEmailable "key")
    (List.replicate 999 "a@b.c") "x@y.z" ["p@q.r"] World.empty
    (ScanState.mk (.of (List.replicate 999 "a@b.c")) []) World.empty
    (.transport "dial tcp: connection refused")
    (World.mk [batchPost ((NewEmailable "key").NewBatchReq (.of (List.replicate 999 "a@b.c")))]
      [((NewEmailable "key").NewBatchReq (.of (List.replicate 999 "a@b.c")),
        .error (.transport "dial tcp: connection refused"))])
    (by
      rw [scanLoop_fill]
      · rfl
      · intro line hline
        rw [List.eq_of_mem_replicate hline]
        decide
      · show 0 + (List.replicate 999 "a@b.c").length ≤ 999
        rw [List.length_replicate]
      · rfl)
    (List.length_replicate _ _)
    (by rfl)).1

/-- C7: if the loop of `BatchFromFile` ends normally (every mid-stream flush succeeded)
with a non-empty buffer and the final flush of that buffer fails, then `BatchFromFile`
returns no error and exactly the responses of the earlier invocations, in order (none
when there was no earlier invocation); the failed invocation is the last one made. -/
theorem BatchFromFile_final_failure (env : Env) (emailable : Emailable) (file : List String)
    (w : World) (s : ScanState) (w1 : World) (err : Error) (w2 : World)
    (hloop : emailable.scanLoop env file ScanState.init w = (.ok s, w1))
    (hpending : s.buffer.len > 0)
    (hfail : emailable.BatchVerify env (emailable.NewBatchReq s.buffer) w1 = (.error err, w2)) :
    emailable.BatchFromFile env file w = (.ok s.results, w2) ∧
      ∃ new : List (BatchRequest × Except Error BatchResponse),
        w2.calls = w.calls ++ new ++ [(emailable.NewBatchReq s.buffer, .error err)] ∧
        new.map Prod.snd = s.results.map Except.ok ∧
        (new = [] → s.results = []) := by
  obtain ⟨new, pending, hcalls, _, _, _, hok, _⟩ :=
    scanLoop_spec env emailable file ScanState.init w (by decide)
  rw [hloop] at hcalls hok
  obtain ⟨_, _, rs, hrs, hmap⟩ := hok s rfl
  have hinitr : ScanState.init.results = [] := rfl
  rw [hinitr, List.nil_append] at hrs
  refine ⟨?_, new, ?_, ?_, ?_⟩
  · rw [BatchFromFile_of_loop_ok env emailable file w s (by rw [hloop]), hloop]
    dsimp only
    rw [finalFlush_of_error env emailable s w1 err hpending (by rw [hfail]), hfail]
  · have h := BatchVerify_calls env emailable (emailable.NewBatchReq s.buffer) w1
    rw [hfail] at h
    dsimp only at h hcalls
    rw [h, hcalls]
  · rw [hrs]
    exact hmap
  · intro hnew
    rw [hnew] at hmap
    rw [hrs]
    cases rs with
    | nil => rfl
    | cons r rs => simp at hmap

/-- C7, instance: 1000 accepted lines on a service whose first request succeeds and whose
second fails: the response of the first batch is returned, without error. -/
theorem BatchFromFile_final_failure_witness :
    ((NewEmailable "key").BatchFromFile Env.failingAfterFirst (List.replicate 1000 "a@b.c")
        World.empty).1 = .ok [{ Message := "ok", Id := "b1" }] :=
  congrArg Prod.fst
    (BatchFromFile_final_failure Env.failingAfterFirst (NewEmailable "key")
      (List.replicate 1000 "a@b.c") World.empty
      { buffer := .of ["a@b.c"], results := [{ Message := "ok", Id := "b1" }] }
      ((NewEmailable "key").scanLoop Env.failingAfterFirst (List.replicate 1000 "a@b.c")
        ScanState.init World.empty).2
      (.transport "dial tcp: connection refused")
      ((NewEmailable "key").BatchVerify Env.failingAfterFirst
        ((NewEmailable "key").NewBatchReq (.of ["a@b.c"]))
        ((NewEmailable "key").scanLoop Env.failingAfterFirst (List.replicate 1000 "a@b.c")
          ScanState.init World.empty).2).2
      (by rfl) (by decide) (by rfl)).1

/-! ## The scanner -/

theorem byteLen_append (xs ys : List Char) : byteLen (xs ++ ys) = byteLen xs + byteLen ys := by
  simp [byteLen]

/-- The tokens the scanner yields are the first lines of the stream, and all of them
when it does not stop on `ErrTooLong`. -/
theorem scanFrom_tokens_lines (stream cur : List Char) :
    ∃ rest, linesFrom stream cur = (scanFrom stream cur).tokens ++ rest ∧
      ((scanFrom stream cur).tooLong = false → rest = []) := by
  induction stream generalizing cur with
  | nil =>
    unfold linesFrom scanFrom
    by_cases hc : cur = []
    · exact ⟨[], by simp [hc], fun _ => rfl⟩
    · by_cases hl : byteLen cur < MaxScanTokenSize
      · exact ⟨[], by simp [hc, hl], fun _ => rfl⟩
      · exact ⟨[String.mk (dropCR cur)], by simp [hc, hl], by simp [hc, hl]⟩
  | cons c stream ih =>
    unfold linesFrom scanFrom
    by_cases hn : c = '\n'
    · by_cases hl : byteLen cur < MaxScanTokenSize
      · obtain ⟨rest, h1, h2⟩ := ih []
        refine ⟨rest, ?_, ?_⟩
        · simp only [hn, if_true, hl]
          rw [h1]
          rfl
        · simp only [hn, if_true, hl]
          exact h2
      · exact ⟨String.mk (dropCR cur) :: linesFrom stream [], by simp [hn, hl],
          by simp [hn, hl]⟩
    · obtain ⟨rest, h1, h2⟩ := ih (cur ++ [c])
      refine ⟨rest, ?_, ?_⟩
      · simp only [hn, if_false]
        exact h1
      · simp only [hn, if_false]
        exact h2

/-- A scan that does not stop on `ErrTooLong` yields the lines of the stream. -/
theorem bufioScan_tokens_of_not_tooLong (stream : List Char)
    (h : (bufioScan stream).tooLong = false) : (bufioScan stream).tokens = streamLines stream := by
  obtain ⟨rest, h1, h2⟩ := scanFrom_tokens_lines stream []
  unfold bufioScan streamLines at *
  rw [h1, h2 h, List.append_nil]

/-- Every token the scanner yields is a line of the stream. -/
theorem bufioScan_tokens_subset (stream : List Char) (x : String)
    (h : x ∈ (bufioScan stream).tokens) : x ∈ streamLines stream := by
  obtain ⟨rest, h1, _⟩ := scanFrom_tokens_lines stream []
  unfold bufioScan streamLines at *
  rw [h1]
  exact List.mem_append_left _ h

/-- The scanner on a stream that starts with a terminated line. -/
theorem scanFrom_line (line rest cur : List Char) (h : '\n' ∉ line) :
    scanFrom (line ++ '\n' :: rest) cur =
      if byteLen (cur ++ line) < MaxScanTokenSize then
        { tokens := String.mk (dropCR (cur ++ line)) :: (scanFrom rest []).tokens,
          tooLong := (scanFrom rest []).tooLong }
      else { tokens := [], tooLong := true } := by
  induction line generalizing cur with
  | nil =>
    rw [List.nil_append, List.append_nil, scanFrom]
    simp
  | cons c line ih =>
    have hc : c ≠ '\n' := fun hc => h (by simp [hc])
    have hl : '\n' ∉ line := fun hl => h (List.mem_cons_of_mem _ hl)
    rw [List.cons_append, scanFrom, if_neg hc, ih _ hl, List.append_assoc]
    rfl

/-- The lines of a stream that starts with a terminated line. -/
theorem linesFrom_line (line rest cur : List Char) (h : '\n' ∉ line) :
    linesFrom (line ++ '\n' :: rest) cur =
      String.mk (dropCR (cur ++ line)) :: linesFrom rest [] := by
  induction line generalizing cur with
  | nil =>
    rw [List.nil_append, List.append_nil, linesFrom]
    simp
  | cons c line ih =>
    have hc : c ≠ '\n' := fun hc => h (by simp [hc])
    have hl : '\n' ∉ line := fun hl => h (List.mem_cons_of_mem _ hl)
    rw [List.cons_append, linesFrom, if_neg hc, ih _ hl, List.append_assoc]
    rfl

/-! ## The sample streams -/

theorem sampleStream_succ (n : Nat) :
    sampleStream (n + 1) = ['a', '@', 'b', '.', 'c'] ++ '\n' :: sampleStream n := by
  unfold sampleStream
  rw [List.replicate_succ, List.flatten_cons]
  rfl

theorem bufioScan_sampleStream (n : Nat) :
    bufioScan (sampleStream n) = { tokens := List.replicate n "a@b.c", tooLong := false } := by
  unfold bufioScan
  induction n with
  | zero => rfl
  | succ n ih =>
    rw [sampleStream_succ, scanFrom_line _ _ _ (by decide), ih, if_pos (by decide),
      List.replicate_succ]
    rfl

theorem streamLines_sampleStream (n : Nat) :
    streamLines (sampleStream n) = List.replicate n "a@b.c" := by
  unfold streamLines
  induction n with
  | zero => rfl
  | succ n ih =>
    rw [sampleStream_succ, linesFrom_line _ _ _ (by decide), ih, List.replicate_succ]
    rfl

theorem longAddress_no_newline : '\n' ∉ longAddress := by
  unfold longAddress longLocalPart
  rw [List.mem_append, List.mem_replicate]
  intro h
  rcases h with h | h
  · exact absurd h.2 (by decide)
  · exact absurd h (by decide)

theorem byteLen_replicate_a (n : Nat) : byteLen (List.replicate n 'a') = n := by
  induction n with
  | zero => rfl
  | succ n ih =>
    rw [List.replicate_succ]
    have h : byteLen ('a' :: List.replicate n 'a') = 1 + byteLen (List.replicate n 'a') := by
      simp only [byteLen, List.map_cons, List.sum_cons]
      rfl
    rw [h, ih]
    omega

theorem byteLen_longAddress : byteLen longAddress = 70004 := by
  unfold longAddress
  rw [byteLen_append]
  have h1 : byteLen longLocalPart = 70000 := by
    unfold longLocalPart
    exact byteLen_replicate_a 70000
  have h2 : byteLen ['@', 'b', '.', 'c'] = 4 := by decide
  rw [h1, h2]

theorem dropCR_longAddress : dropCR longAddress = longAddress := by
  unfold dropCR longAddress
  rw [List.getLast?_append]
  have h : (['@', 'b', '.', 'c'] : List Char).getLast? = some 'c' := rfl
  have h2 : (some 'c').or longLocalPart.getLast? = some 'c' := rfl
  rw [h, h2, if_neg (by decide)]

/-- The scanner yields the first line of the sample and stops at the long one. -/
theorem bufioScan_longLineStream :
    bufioScan longLineStream = { tokens := ["a@b.c"], tooLong := true } := by
  unfold bufioScan longLineStream
  rw [scanFrom_line _ _ _ (by decide), if_pos (by decide),
    scanFrom_line _ _ _ longAddress_no_newline]
  simp only [List.nil_append]
  rw [byteLen_longAddress, if_neg (by decide)]
  rfl

/-- The sample stream has three lines. -/
theorem streamLines_longLineStream :
    streamLines longLineStream = ["a@b.c", String.mk longAddress, "d@e.f"] := by
  unfold streamLines longLineStream
  rw [linesFrom_line _ _ _ (by decide), linesFrom_line _ _ _ longAddress_no_newline,
    linesFrom_line _ _ _ (by decide)]
  simp only [List.nil_append]
  rw [dropCR_longAddress]
  rfl

theorem accepting_longAddress : Env.accepting.parseAddress (String.mk longAddress) = true := by
  show longAddress.contains '@' = true
  unfold longAddress
  rw [List.contains, List.elem_iff, List.mem_append]
  exact Or.inr (by decide)

/-! ## BatchFromFile on a stream: the properties -/

theorem BatchFromReader_eq_of_not_tooLong (env : Env) (emailable : Emailable)
    (stream : List Char) (w : World) (h : (bufioScan stream).tooLong = false) :
    emailable.BatchFromReader env stream w =
      emailable.BatchFromFile env (streamLines stream) w := by
  unfold Emailable.BatchFromReader
  rw [bufioScan_tokens_of_not_tooLong stream h]

/-- On a stream of `n` lines `a@b.c` the Go function runs over those `n` tokens. -/
theorem BatchFromReader_sampleStream (env : Env) (emailable : Emailable) (n : Nat) (w : World) :
    emailable.BatchFromReader env (sampleStream n) w =
      emailable.BatchFromFile env (List.replicate n "a@b.c") w := by
  unfold Emailable.BatchFromReader
  rw [bufioScan_sampleStream]

/-- C3, amended: for every input stream, nothing but lines of the stream that the parser
accepts appears in any buffer `BatchFromFile` hands to `BatchVerify`; and whenever the
scanner reads the stream to its end (it does not stop on a line that exceeds its buffer)
and `BatchFromFile` returns without error, the total number of addresses over all those
buffers equals the number of lines of the stream the parser accepts. -/
theorem BatchFromReader_submits_accepted_lines (env : Env) (emailable : Emailable)
    (stream : List Char) (w : World) :
    ∃ new : List (BatchRequest × Except Error BatchResponse),
      (emailable.BatchFromReader env stream w).2.calls = w.calls ++ new ∧
      (∀ c ∈ new, ∀ x ∈ callEmails c, x ∈ streamLines stream ∧ env.parseAddress x = true) ∧
      ((bufioScan stream).tooLong = false →
        (∃ rs, (emailable.BatchFromReader env stream w).1 = .ok rs) →
        (new.map (fun c => (callEmails c).length)).sum =
          ((streamLines stream).filter env.parseAddress).length) := by
  obtain ⟨new, hcalls, hmem, hsum⟩ :=
    BatchFromFile_tokens_accepted env emailable (bufioScan stream).tokens w
  refine ⟨new, hcalls, ?_, ?_⟩
  · intro c hc x hx
    obtain ⟨h1, h2⟩ := hmem c hc x hx
    exact ⟨bufioScan_tokens_subset stream x h1, h2⟩
  · intro hend hok
    rw [← bufioScan_tokens_of_not_tooLong stream hend]
    exact hsum hok

/-- C3, instance: a stream of three lines, one rejected, read to its end, on a service
that accepts every batch. -/
theorem BatchFromReader_submits_accepted_lines_witness :
    (bufioScan "a@b.c\nnot-an-email\nd@e.f\n".data).tooLong = false ∧
    (∃ rs, ((NewEmailable "key").BatchFromReader Env.accepting
        "a@b.c\nnot-an-email\nd@e.f\n".data World.empty).1 = .ok rs) ∧
    ∃ new : List (BatchRequest × Except Error BatchResponse),
      ((NewEmailable "key").BatchFromReader Env.accepting
        "a@b.c\nnot-an-email\nd@e.f\n".data World.empty).2.calls = World.empty.calls ++ new ∧
      (∀ c ∈ new, ∀ x ∈ callEmails c,
        x ∈ streamLines "a@b.c\nnot-an-email\nd@e.f\n".data ∧
          Env.accepting.parseAddress x = true) ∧
      ((bufioScan "a@b.c\nnot-an-email\nd@e.f\n".data).tooLong = false →
        (∃ rs, ((NewEmailable "key").BatchFromReader Env.accepting
          "a@b.c\nnot-an-email\nd@e.f\n".data World.empty).1 = .ok rs) →
        (new.map (fun c => (callEmails c).length)).sum =
          ((streamLines "a@b.c\nnot-an-email\nd@e.f\n".data).filter
            Env.accepting.parseAddress).length) :=
  ⟨by decide, ⟨[{ Message := "ok", Id := "b1" }], by rfl⟩,
    BatchFromReader_submits_accepted_lines Env.accepting (NewEmailable "key")
      "a@b.c\nnot-an-email\nd@e.f\n".data World.empty⟩

/-- C5, as stated, fails: the sample stream has three lines, all accepted by the parser,
the second of 70004 bytes; the scanner stops at that line, so `BatchFromFile` returns
without error after one successful invocation whose buffer holds the first line only,
where the claim has one batch holding the lines 1 to 3. -/
theorem BatchFromReader_long_line_counterexample :
    streamLines longLineStream = ["a@b.c", String.mk longAddress, "d@e.f"] ∧
    (∀ line ∈ streamLines longLineStream, Env.accepting.parseAddress line = true) ∧
    ((NewEmailable "key").BatchFromReader Env.accepting longLineStream World.empty).1 =
      .ok [{ Message := "ok", Id := "b1" }] ∧
    (∀ c ∈ ((NewEmailable "key").BatchFromReader Env.accepting longLineStream
      World.empty).2.calls, callSucceeded c = true) ∧
    ((NewEmailable "key").BatchFromReader Env.accepting longLineStream
      World.empty).2.calls.map callEmails = [["a@b.c"]] ∧
    ((NewEmailable "key").BatchFromReader Env.accepting longLineStream
      World.empty).2.calls.map callEmails ≠ [streamLines longLineStream] := by
  have hrun : (NewEmailable "key").BatchFromReader Env.accepting longLineStream World.empty =
      (NewEmailable "key").BatchFromFile Env.accepting ["a@b.c"] World.empty := by
    unfold Emailable.BatchFromReader
    rw [bufioScan_longLineStream]
  refine ⟨streamLines_longLineStream, ?_, ?_, ?_, ?_, ?_⟩
  · intro line hline
    rw [streamLines_longLineStream] at hline
    simp only [List.mem_cons, List.mem_singleton, List.not_mem_nil, or_false] at hline
    rcases hline with rfl | rfl | rfl
    · decide
    · exact accepting_longAddress
    · decide
  · rw [hrun]
    rfl
  · rw [hrun]
    decide
  · rw [hrun]
    decide
  · rw [hrun, streamLines_longLineStream]
    have h : ((NewEmailable "key").BatchFromFile Env.accepting ["a@b.c"]
        World.empty).2.calls.map callEmails = [["a@b.c"]] := by decide
    rw [h]
    intro heq
    have hlen := congrArg (fun l => (l.map List.length)) heq
    simp at hlen

/-- C5, amended: for every input stream that the scanner reads to its end (no line
exceeds its buffer), with `n ≥ 1` lines, all accepted by the parser, on which every
`BatchVerify` invocation made by `BatchFromFile` succeeds: `BatchFromFile` makes exactly
`⌈n/999⌉` invocations, each posted as one default request; the buffer of the `i`-th one
(counting from 0) holds the lines `take 999 (drop (999 * i) lines)`; it returns without
error exactly one response per invocation, in order; and for `n = 1500` the buffer sizes
are 999 then 501. -/
theorem BatchFromReader_chunks (env : Env) (emailable : Emailable) (stream : List Char)
    (w : World) (hend : (bufioScan stream).tooLong = false)
    (hne : 1 ≤ (streamLines stream).length)
    (hvalid : ∀ line ∈ streamLines stream, env.parseAddress line = true)
    (hsucc : ∀ c ∈ (emailable.BatchFromReader env stream w).2.calls.drop w.calls.length,
      callSucceeded c = true) :
    ∃ (new : List (BatchRequest × Except Error BatchResponse)) (rs : List BatchResponse),
      (emailable.BatchFromReader env stream w).2.calls = w.calls ++ new ∧
      (emailable.BatchFromReader env stream w).2.sent =
        w.sent ++ new.map (fun c => batchPost c.1) ∧
      (emailable.BatchFromReader env stream w).1 = .ok rs ∧
      new.length = ((streamLines stream).length + 998) / 999 ∧
      1 ≤ new.length ∧
      new.map callEmails =
        (List.range (((streamLines stream).length + 998) / 999)).map
          (fun i => ((streamLines stream).drop (999 * i)).take 999) ∧
      (∀ c ∈ new, c.1 = emailable.NewBatchReq (.of (callEmails c))) ∧
      new.map Prod.snd = rs.map Except.ok ∧
      rs.length = new.length ∧
      ((streamLines stream).length = 1500 →
        new.map (fun c => (callEmails c).length) = [999, 501]) := by
  rw [BatchFromReader_eq_of_not_tooLong env emailable stream w hend] at hsucc ⊢
  exact BatchFromFile_tokens_chunks env emailable (streamLines stream) w hne hvalid hsucc

/-- C5, instance: a stream of 1500 accepted lines on a service that accepts every batch
gives two buffers, of sizes 999 and 501. -/
theorem BatchFromReader_chunks_witness :
    ∃ (new : List (BatchRequest × Except Error BatchResponse)) (rs : List BatchResponse),
      ((NewEmailable "key").BatchFromReader Env.accepting (sampleStream 1500)
        World.empty).2.calls = new ∧
      ((NewEmailable "key").BatchFromReader Env.accepting (sampleStream 1500)
        World.empty).1 = .ok rs ∧
      new.length = 2 ∧ rs.length = 2 ∧
      new.map (fun c => (callEmails c).length) = [999, 501] := by
  have hlen : (streamLines (sampleStream 1500)).length = 1500 := by
    rw [streamLines_sampleStream, List.length_replicate]
  obtain ⟨new, rs, h1, _, h3, h4, _, _, _, _, h9, h10⟩ :=
    BatchFromReader_chunks Env.accepting (NewEmailable "key") (sampleStream 1500) World.empty
      (by rw [bufioScan_sampleStream])
      (by rw [hlen]; decide)
      (by
        intro line hline
        rw [streamLines_sampleStream] at hline
        rw [List.eq_of_mem_replicate hline]
        decide)
      (by
        unfold Emailable.BatchFromReader
        rw [bufioScan_sampleStream]
        decide)
  refine ⟨new, rs, by rw [h1]; rfl, h3, ?_, ?_, h10 hlen⟩
  · rw [h4, hlen]
  · rw [h9, h4, hlen]

end EmailableGo
